import Mathlib

/-!
Shallow embedding of the MAC address changer program (src/Mac_changer.py).

The program's address logic is built on two regular expressions over the
character classes hex digit and separator:

* `validate_mac` matches the anchored pattern of six 2-digit hexadecimal
  groups joined by a colon or hyphen; Python's dollar anchor also matches
  just before a single string-final newline, which the embedding models
  explicitly.
* `get_current_mac` scans command output for the leftmost occurrence of the
  unanchored version of the same pattern and returns the matched substring.

`generate_random_mac` is modelled as a function of the six random draws
(each drawn from 0..255 by the program); `change_mac` is modelled together
with the list of OS commands it issues, and `verify_change` over the raw
text that the OS read would return.
-/

/-- Character class of the regex class 0-9, A-F, a-f (by code point). -/
def isHexDigit (c : Char) : Bool :=
  decide (48 ≤ c.toNat ∧ c.toNat ≤ 57) ||
  decide (97 ≤ c.toNat ∧ c.toNat ≤ 102) ||
  decide (65 ≤ c.toNat ∧ c.toNat ≤ 70)

/-- Character class of the regex class colon-or-hyphen. -/
def isSep (c : Char) : Bool :=
  decide (c = ':') || decide (c = '-')

/-- Matcher for the fixed-length pattern of n repetitions of
(hex hex sep) followed by a final (hex hex): exactly the body of the
regex used by `validate_mac` (with n = 5) and by the scan in
`get_current_mac`. -/
def macGroups : Nat → List Char → Bool
  | 0, [a, b] => isHexDigit a && isHexDigit b
  | n + 1, a :: b :: s :: rest =>
    isHexDigit a && isHexDigit b && isSep s && macGroups n rest
  | _, _ => false

/-- Semantics of Python re.match with both anchors on the fixed-length
pattern: the whole string matches, or the string minus a single final
newline matches (Python's dollar anchor matches before a final newline). -/
def validateChars (cs : List Char) : Bool :=
  macGroups 5 cs ||
    match cs.getLast? with
    | some c => decide (c = '\n') && macGroups 5 cs.dropLast
    | none => false

/-- Embedding of MACChanger.validate_mac. -/
def validate_mac (s : String) : Bool :=
  validateChars s.data

/-- The unanchored pattern matches the input at start position i.
The pattern has fixed length 17 (six groups of two plus five separators). -/
def matchesAt (cs : List Char) (i : Nat) : Bool :=
  macGroups 5 ((cs.drop i).take 17)

/-- Leftmost-match search of the unanchored pattern: Python re.search tries
each start position from the left and the pattern is fixed-length, so the
result is the 17-character block at the first position that matches. -/
def findMacAux : List Char → Option (List Char)
  | [] => none
  | c :: rest =>
    if macGroups 5 ((c :: rest).take 17) then some ((c :: rest).take 17)
    else findMacAux rest

/-- The regex scan inside MACChanger.get_current_mac: first (leftmost)
six-hex-group substring of the raw command output, or none. -/
def parseFromText (s : String) : Option String :=
  (findMacAux s.data).map (fun cs => String.mk cs)

/-- Embedding of MACChanger.get_current_mac. The OS read is a parameter:
none models a failed command (caught exception path), some r models the
decoded output text r. -/
def get_current_mac (raw : Option String) : Option String :=
  match raw with
  | none => none
  | some r => parseFromText r

/-- Lowercase hexadecimal digit of a value below 16, as produced by
Python's 02x format code (values 16 and above do not occur for octets). -/
def hexChar (n : Nat) : Char :=
  if n = 0 then '0' else if n = 1 then '1' else if n = 2 then '2'
  else if n = 3 then '3' else if n = 4 then '4' else if n = 5 then '5'
  else if n = 6 then '6' else if n = 7 then '7' else if n = 8 then '8'
  else if n = 9 then '9' else if n = 10 then 'a' else if n = 11 then 'b'
  else if n = 12 then 'c' else if n = 13 then 'd' else if n = 14 then 'e'
  else if n = 15 then 'f' else '0'

/-- Two-digit lowercase hexadecimal rendering of an octet (Python 02x). -/
def hexByte (n : Nat) : List Char :=
  [hexChar (n / 16), hexChar (n % 16)]

/-- Embedding of MACChanger.generate_random_mac as a function of the six
random draws a..f (random.randint(0x00, 0xff) each). The first octet is
post-processed with bitwise and 0xfe then or 0x02, and the six octets are
rendered as 2-digit lowercase hex joined by colons. -/
def generate_random_mac (a b c d e f : Nat) : String :=
  String.mk
    (hexByte ((a &&& 0xfe) ||| 0x02) ++ ':' ::
      (hexByte b ++ ':' :: (hexByte c ++ ':' ::
        (hexByte d ++ ':' :: (hexByte e ++ ':' :: hexByte f)))))

/-- The two operating systems the program supports. -/
inductive OSKind where
  | darwin
  | linux

/-- Embedding of MACChanger.change_mac. runOk gives the success of each
checked OS command (subprocess.run with check=True; a failure raises and is
caught, returning False). The result pairs the returned boolean with the
list of OS commands issued, in order; the airport disassociation on Darwin
runs with check=False so its outcome is ignored but it is still issued. -/
def change_mac (sys : OSKind) (runOk : List String → Bool)
    (iface mac : String) : Bool × List (List String) :=
  if validate_mac mac = false then (false, [])
  else
    match sys with
    | OSKind.darwin =>
      let c0 := ["sudo", "airport", "-z"]
      let c1 := ["sudo", "ifconfig", iface, "ether", mac]
      if runOk c1 then (true, [c0, c1]) else (false, [c0, c1])
    | OSKind.linux =>
      let c1 := ["sudo", "ip", "link", "set", iface, "down"]
      let c2 := ["sudo", "ip", "link", "set", iface, "address", mac]
      let c3 := ["sudo", "ip", "link", "set", iface, "up"]
      if runOk c1 = false then (false, [c1])
      else if runOk c2 = false then (false, [c1, c2])
      else if runOk c3 = false then (false, [c1, c2, c3])
      else (true, [c1, c2, c3])

/-- Lowercasing of a string, character by character (the effect of Python
str.lower() on the ASCII text handled by this program). -/
def toLowerStr (s : String) : String :=
  String.mk (s.data.map Char.toLower)

/-- Embedding of MACChanger.verify_change. raw is the text the re-read of
the interface would produce (none for a failed read). Python tests the
truthiness of the parsed address and then compares both sides lowercased. -/
def verify_change (raw : Option String) (expected : String) : Bool :=
  match get_current_mac raw with
  | some cur => (!(decide (cur = ""))) && decide (toLowerStr cur = toLowerStr expected)
  | none => false

/-- Outcome of running main() inside the top-level handler of the script. -/
inductive MainOutcome where
  | completed (code : Nat)
  | keyboardInterrupt
  | unexpectedError

/-- Embedding of the top-level handler at the bottom of the script:
a keyboard interrupt exits 0, any other exception exits 1, and a normal
completion keeps its exit code. -/
def top_level_exit : MainOutcome → Nat
  | MainOutcome.completed code => code
  | MainOutcome.keyboardInterrupt => 0
  | MainOutcome.unexpectedError => 1

/-- Lowercase hex digit character class (digits or lowercase a-f). -/
def isLowerHexDigit (c : Char) : Bool :=
  decide (48 ≤ c.toNat ∧ c.toNat ≤ 57) ||
  decide (97 ≤ c.toNat ∧ c.toNat ≤ 102)

/-- Flip the case of the six hex letters, leaving every other character
unchanged. -/
def flipHexCase (c : Char) : Char :=
  if c = 'a' then 'A' else if c = 'b' then 'B' else if c = 'c' then 'C'
  else if c = 'd' then 'D' else if c = 'e' then 'E' else if c = 'f' then 'F'
  else if c = 'A' then 'a' else if c = 'B' then 'b' else if c = 'C' then 'c'
  else if c = 'D' then 'd' else if c = 'E' then 'e' else if c = 'F' then 'f'
  else c

/-- A string with its hex-letter case flipped. -/
def flipCase (s : String) : String :=
  String.mk (s.data.map flipHexCase)

/-- A 2-digit hexadecimal group. -/
def isHexPair (g : List Char) : Bool :=
  match g with
  | [a, b] => isHexDigit a && isHexDigit b
  | _ => false

/-- Modelled from the spec's words: the string consists of exactly six
2-digit hexadecimal groups (case-insensitive) separated by colon or hyphen,
with nothing before the first group or after the last. Stated as a
decomposition into the six groups and five separator characters. -/
def SpecMacFormat (cs : List Char) : Prop :=
  ∃ g1 g2 g3 g4 g5 g6 : List Char, ∃ s1 s2 s3 s4 s5 : Char,
    isHexPair g1 = true ∧ isHexPair g2 = true ∧ isHexPair g3 = true ∧
    isHexPair g4 = true ∧ isHexPair g5 = true ∧ isHexPair g6 = true ∧
    isSep s1 = true ∧ isSep s2 = true ∧ isSep s3 = true ∧
    isSep s4 = true ∧ isSep s5 = true ∧
    cs = g1 ++ s1 :: (g2 ++ s2 :: (g3 ++ s3 :: (g4 ++ s4 :: (g5 ++ s5 :: g6))))

lemma macGroups_zero_iff (cs : List Char) :
    macGroups 0 cs = true ↔
      ∃ a b, cs = [a, b] ∧ isHexDigit a = true ∧ isHexDigit b = true := by
  constructor
  · intro h
    rcases cs with _ | ⟨a, _ | ⟨b, _ | ⟨c, t⟩⟩⟩ <;> simp [macGroups] at h
    exact ⟨a, b, rfl, h.1, h.2⟩
  · rintro ⟨a, b, rfl, ha, hb⟩
    simp [macGroups, ha, hb]

lemma macGroups_succ_iff (n : Nat) (cs : List Char) :
    macGroups (n + 1) cs = true ↔
      ∃ a b s rest, cs = a :: b :: s :: rest ∧ isHexDigit a = true ∧
        isHexDigit b = true ∧ isSep s = true ∧ macGroups n rest = true := by
  constructor
  · intro h
    rcases cs with _ | ⟨a, _ | ⟨b, _ | ⟨s, rest⟩⟩⟩ <;> simp [macGroups] at h
    exact ⟨a, b, s, rest, rfl, h.1.1.1, h.1.1.2, h.1.2, h.2⟩
  · rintro ⟨a, b, s, rest, rfl, ha, hb, hs, hrest⟩
    simp [macGroups, ha, hb, hs, hrest]

lemma macGroups_length (n : Nat) (cs : List Char) (h : macGroups n cs = true) :
    cs.length = 3 * n + 2 := by
  induction n generalizing cs with
  | zero =>
    obtain ⟨a, b, rfl, -, -⟩ := (macGroups_zero_iff cs).mp h
    rfl
  | succ n ih =>
    obtain ⟨a, b, s, rest, rfl, -, -, -, hr⟩ := (macGroups_succ_iff n cs).mp h
    have := ih rest hr
    simp [List.length]
    omega

lemma isHexPair_eq_macGroups_zero (g : List Char) : isHexPair g = macGroups 0 g := by
  rcases g with _ | ⟨a, _ | ⟨b, _ | ⟨c, t⟩⟩⟩ <;> rfl

lemma macGroups5_iff_spec (cs : List Char) :
    macGroups 5 cs = true ↔ SpecMacFormat cs := by
  constructor
  · intro h
    obtain ⟨a1, b1, s1, r1, rfl, ha1, hb1, hs1, h1⟩ := (macGroups_succ_iff 4 _).mp h
    obtain ⟨a2, b2, s2, r2, rfl, ha2, hb2, hs2, h2⟩ := (macGroups_succ_iff 3 _).mp h1
    obtain ⟨a3, b3, s3, r3, rfl, ha3, hb3, hs3, h3⟩ := (macGroups_succ_iff 2 _).mp h2
    obtain ⟨a4, b4, s4, r4, rfl, ha4, hb4, hs4, h4⟩ := (macGroups_succ_iff 1 _).mp h3
    obtain ⟨a5, b5, s5, r5, rfl, ha5, hb5, hs5, h5⟩ := (macGroups_succ_iff 0 _).mp h4
    obtain ⟨a6, b6, rfl, ha6, hb6⟩ := (macGroups_zero_iff _).mp h5
    refine ⟨[a1, b1], [a2, b2], [a3, b3], [a4, b4], [a5, b5], [a6, b6],
      s1, s2, s3, s4, s5, ?_, ?_, ?_, ?_, ?_, ?_, hs1, hs2, hs3, hs4, hs5, ?_⟩ <;>
      simp [isHexPair, ha1, hb1, ha2, hb2, ha3, hb3, ha4, hb4, ha5, hb5, ha6, hb6]
  · rintro ⟨g1, g2, g3, g4, g5, g6, s1, s2, s3, s4, s5,
      h1, h2, h3, h4, h5, h6, hs1, hs2, hs3, hs4, hs5, rfl⟩
    rw [isHexPair_eq_macGroups_zero] at h1 h2 h3 h4 h5 h6
    obtain ⟨a1, b1, rfl, ha1, hb1⟩ := (macGroups_zero_iff _).mp h1
    obtain ⟨a2, b2, rfl, ha2, hb2⟩ := (macGroups_zero_iff _).mp h2
    obtain ⟨a3, b3, rfl, ha3, hb3⟩ := (macGroups_zero_iff _).mp h3
    obtain ⟨a4, b4, rfl, ha4, hb4⟩ := (macGroups_zero_iff _).mp h4
    obtain ⟨a5, b5, rfl, ha5, hb5⟩ := (macGroups_zero_iff _).mp h5
    obtain ⟨a6, b6, rfl, ha6, hb6⟩ := (macGroups_zero_iff _).mp h6
    simp [macGroups, ha1, hb1, ha2, hb2, ha3, hb3, ha4, hb4, ha5, hb5, ha6, hb6,
      hs1, hs2, hs3, hs4, hs5]

lemma spec_length (cs : List Char) (h : SpecMacFormat cs) : cs.length = 17 := by
  have := macGroups_length 5 cs ((macGroups5_iff_spec cs).mpr h)
  omega

lemma concat_inj_char (l l' : List Char) (a b : Char) :
    l ++ [a] = l' ++ [b] ↔ l = l' ∧ a = b := by
  constructor
  · intro h
    have h1 := congrArg List.dropLast h
    have h2 := congrArg List.getLast? h
    simp [List.dropLast_concat, List.getLast?_concat] at h1 h2
    exact ⟨h1, h2⟩
  · rintro ⟨rfl, rfl⟩
    rfl

lemma validateChars_iff (cs : List Char) :
    validateChars cs = true ↔
      SpecMacFormat cs ∨ ∃ l, cs = l ++ ['\n'] ∧ SpecMacFormat l := by
  rcases List.eq_nil_or_concat' cs with rfl | ⟨l, a, rfl⟩
  · constructor
    · intro h
      simp [validateChars, macGroups] at h
    · rintro (h | ⟨l, hl, h⟩)
      · exact absurd (spec_length _ h) (by simp)
      · exact absurd (congrArg List.length hl) (by simp)
  · have hg : (l ++ [a]).getLast? = some a := List.getLast?_concat l
    have hd : (l ++ [a]).dropLast = l := List.dropLast_concat
    constructor
    · intro h
      simp only [validateChars, hg, hd, Bool.or_eq_true, Bool.and_eq_true,
        decide_eq_true_eq] at h
      rcases h with h | ⟨rfl, h⟩
      · exact Or.inl ((macGroups5_iff_spec _).mp h)
      · exact Or.inr ⟨l, rfl, (macGroups5_iff_spec _).mp h⟩
    · rintro (h | ⟨l', hl', h⟩)
      · simp only [validateChars, Bool.or_eq_true]
        exact Or.inl ((macGroups5_iff_spec _).mpr h)
      · obtain ⟨rfl, rfl⟩ := (concat_inj_char l l' a '\n').mp hl'
        simp only [validateChars, hg, hd, Bool.or_eq_true, Bool.and_eq_true,
          decide_eq_true_eq]
        exact Or.inr ⟨trivial, (macGroups5_iff_spec _).mpr h⟩

lemma flipHexCase_facts (c : Char) :
    isHexDigit (flipHexCase c) = isHexDigit c ∧
      isSep (flipHexCase c) = isSep c ∧ (flipHexCase c = '\n' ↔ c = '\n') := by
  rcases eq_or_ne c 'a' with rfl | ha
  · decide
  rcases eq_or_ne c 'b' with rfl | hb
  · decide
  rcases eq_or_ne c 'c' with rfl | hcc
  · decide
  rcases eq_or_ne c 'd' with rfl | hd
  · decide
  rcases eq_or_ne c 'e' with rfl | he
  · decide
  rcases eq_or_ne c 'f' with rfl | hf
  · decide
  rcases eq_or_ne c 'A' with rfl | hA
  · decide
  rcases eq_or_ne c 'B' with rfl | hB
  · decide
  rcases eq_or_ne c 'C' with rfl | hC
  · decide
  rcases eq_or_ne c 'D' with rfl | hD
  · decide
  rcases eq_or_ne c 'E' with rfl | hE
  · decide
  rcases eq_or_ne c 'F' with rfl | hF
  · decide
  have hid : flipHexCase c = c := by
    simp [flipHexCase, ha, hb, hcc, hd, he, hf, hA, hB, hC, hD, hE, hF]
  rw [hid]
  exact ⟨rfl, rfl, Iff.rfl⟩

lemma isHexDigit_flip (c : Char) : isHexDigit (flipHexCase c) = isHexDigit c :=
  (flipHexCase_facts c).1

lemma isSep_flip (c : Char) : isSep (flipHexCase c) = isSep c :=
  (flipHexCase_facts c).2.1

lemma flip_eq_newline (c : Char) : flipHexCase c = '\n' ↔ c = '\n' :=
  (flipHexCase_facts c).2.2

lemma macGroups_map_flip (n : Nat) (cs : List Char) :
    macGroups n (cs.map flipHexCase) = macGroups n cs := by
  induction n generalizing cs with
  | zero =>
    rcases cs with _ | ⟨a, _ | ⟨b, _ | ⟨c, t⟩⟩⟩ <;>
      simp [macGroups, isHexDigit_flip]
  | succ n ih =>
    rcases cs with _ | ⟨a, _ | ⟨b, _ | ⟨c, t⟩⟩⟩ <;>
      simp [macGroups, isHexDigit_flip, isSep_flip, ih]

lemma validateChars_flip (cs : List Char) :
    validateChars (cs.map flipHexCase) = validateChars cs := by
  unfold validateChars
  simp only [macGroups_map_flip, List.getLast?_map, ← List.map_dropLast]
  cases h : cs.getLast? with
  | none => rfl
  | some c =>
    simp only [Option.map_some', macGroups_map_flip]
    have hdec : decide (flipHexCase c = '\n') = decide (c = '\n') := by
      rw [decide_eq_decide]
      exact flip_eq_newline c
    rw [hdec]

lemma hexChar_lower (n : Nat) : isLowerHexDigit (hexChar n) = true := by
  rcases Nat.lt_or_ge n 16 with h | h
  · interval_cases n <;> decide
  · have e : hexChar n = '0' := by
      obtain ⟨m, rfl⟩ : ∃ m, n = m + 16 := ⟨n - 16, by omega⟩
      rfl
    rw [e]
    decide

lemma lowerHex_isHex (c : Char) (h : isLowerHexDigit c = true) :
    isHexDigit c = true := by
  unfold isLowerHexDigit at h
  unfold isHexDigit
  simp only [Bool.or_eq_true, decide_eq_true_eq] at h ⊢
  tauto

lemma hexChar_isHex (n : Nat) : isHexDigit (hexChar n) = true :=
  lowerHex_isHex _ (hexChar_lower n)

lemma matchesAt_zero (cs : List Char) :
    matchesAt cs 0 = macGroups 5 (cs.take 17) := rfl

lemma matchesAt_succ (c : Char) (cs : List Char) (i : Nat) :
    matchesAt (c :: cs) (i + 1) = matchesAt cs i := rfl

lemma findMacAux_cons (c : Char) (rest : List Char) :
    findMacAux (c :: rest) =
      if macGroups 5 ((c :: rest).take 17) then some ((c :: rest).take 17)
      else findMacAux rest := rfl

lemma findMacAux_none_iff (cs : List Char) :
    findMacAux cs = none ↔ ∀ i, matchesAt cs i = false := by
  induction cs with
  | nil =>
    constructor
    · intro _ i
      simp [matchesAt, macGroups]
    · intro _
      rfl
  | cons c rest ih =>
    cases hx : macGroups 5 ((c :: rest).take 17) with
    | true =>
      rw [findMacAux_cons, if_pos hx]
      constructor
      · intro h
        exact absurd h (by simp)
      · intro hall
        have h0 := hall 0
        rw [matchesAt_zero, hx] at h0
        exact absurd h0 (by simp)
    | false =>
      rw [findMacAux_cons, if_neg (by rw [hx]; simp), ih]
      constructor
      · intro hall i
        cases i with
        | zero =>
          rw [matchesAt_zero]
          exact hx
        | succ i =>
          rw [matchesAt_succ]
          exact hall i
      · intro hall i
        have := hall (i + 1)
        rwa [matchesAt_succ] at this

lemma findMacAux_leftmost (cs : List Char) (i : Nat)
    (hi : matchesAt cs i = true) (hmin : ∀ j, j < i → matchesAt cs j = false) :
    findMacAux cs = some ((cs.drop i).take 17) := by
  induction cs generalizing i with
  | nil =>
    simp [matchesAt, macGroups] at hi
  | cons c rest ih =>
    cases i with
    | zero =>
      rw [matchesAt_zero] at hi
      rw [findMacAux_cons, if_pos hi]
      rfl
    | succ i =>
      have h0 := hmin 0 (Nat.succ_pos i)
      rw [matchesAt_zero] at h0
      rw [findMacAux_cons, if_neg (by rw [h0]; simp)]
      have hi' : matchesAt rest i = true := by rwa [matchesAt_succ] at hi
      have hmin' : ∀ j, j < i → matchesAt rest j = false := fun j hj => by
        have := hmin (j + 1) (Nat.succ_lt_succ hj)
        rwa [matchesAt_succ] at this
      rw [ih i hi' hmin']
      rfl

lemma findMacAux_some_matches (cs l : List Char) (h : findMacAux cs = some l) :
    macGroups 5 l = true := by
  induction cs with
  | nil => simp [findMacAux] at h
  | cons c rest ih =>
    rw [findMacAux_cons] at h
    by_cases hx : macGroups 5 ((c :: rest).take 17) = true
    · rw [if_pos hx] at h
      injection h with h'
      exact h' ▸ hx
    · rw [if_neg hx] at h
      exact ih h

lemma get_current_mac_ne_empty (raw : Option String) (cur : String)
    (h : get_current_mac raw = some cur) : cur ≠ "" := by
  match raw with
  | none => simp [get_current_mac] at h
  | some r =>
    simp only [get_current_mac, parseFromText] at h
    cases hf : findMacAux r.data with
    | none =>
      rw [hf] at h
      simp at h
    | some l =>
      rw [hf] at h
      simp only [Option.map_some'] at h
      have hl : l.length = 17 :=
        macGroups_length 5 l (findMacAux_some_matches _ _ hf)
      intro hemp
      rw [hemp] at h
      injection h with h'
      have : l = [] := congrArg String.data h'
      rw [this] at hl
      simp at hl

/-- Claim C1 (counterexample): validate_mac accepts an otherwise-valid
address followed by one trailing newline, although that string does not
consist of six hex groups with nothing after the last; so validate_mac is
not equivalent to the strict spec format. -/
theorem validate_mac_strict_format_cex :
    validate_mac "aa:bb:cc:dd:ee:ff\n" = true ∧
      ¬ SpecMacFormat ("aa:bb:cc:dd:ee:ff\n").data :=
  ⟨by decide, fun h => absurd (spec_length _ h) (by decide)⟩

/-- Claim C1 (amended): for every string t, validate_mac t is true iff t
consists of exactly six 2-digit hexadecimal groups (case-insensitive)
separated by colon or hyphen with nothing before the first group, and
either nothing after the last group or exactly one trailing newline
character. -/
theorem validate_mac_iff_spec_format (s : String) :
    validate_mac s = true ↔
      SpecMacFormat s.data ∨ ∃ l, s.data = l ++ ['\n'] ∧ SpecMacFormat l :=
  validateChars_iff s.data

/-- Witness for C1: the amended equivalence applied at a concrete input. -/
theorem validate_mac_iff_spec_format_witness :
    validate_mac "aa-bb:cc:dd:ee:ff" = true :=
  (validate_mac_iff_spec_format "aa-bb:cc:dd:ee:ff").mpr
    (Or.inl ⟨['a', 'a'], ['b', 'b'], ['c', 'c'], ['d', 'd'], ['e', 'e'], ['f', 'f'],
      '-', ':', ':', ':', ':',
      by decide, by decide, by decide, by decide, by decide, by decide,
      by decide, by decide, by decide, by decide, by decide, by decide⟩)

/-- Claim C2: whatever the six octets drawn from the random source (each
in 0..255), the generated address passes validate_mac, the first octet has
bit 0 clear and bit 1 set, and the text uses only lowercase hex digits and
colon separators. -/
theorem generate_random_mac_ok (a b c d e f : Nat)
    (ha : a ≤ 255) (hb : b ≤ 255) (hc : c ≤ 255)
    (hd : d ≤ 255) (he : e ≤ 255) (hf : f ≤ 255) :
    validate_mac (generate_random_mac a b c d e f) = true ∧
    Nat.testBit ((a &&& 0xfe) ||| 0x02) 0 = false ∧
    Nat.testBit ((a &&& 0xfe) ||| 0x02) 1 = true ∧
    (generate_random_mac a b c d e f).data.all
      (fun ch => isLowerHexDigit ch || decide (ch = ':')) = true := by
  have hdata : (generate_random_mac a b c d e f).data
      = hexByte ((a &&& 0xfe) ||| 0x02) ++ ':' :: (hexByte b ++ ':' ::
          (hexByte c ++ ':' :: (hexByte d ++ ':' ::
            (hexByte e ++ ':' :: hexByte f)))) := rfl
  refine ⟨?_, ?_, ?_, ?_⟩
  · have hx : ∀ n : Nat, isHexDigit (hexChar n) = true := hexChar_isHex
    simp [validate_mac, hdata, validateChars, hexByte, macGroups, hx, isSep]
  · have h254 : Nat.testBit 254 0 = false := by decide
    have h2 : Nat.testBit 2 0 = false := by decide
    simp [Nat.testBit_or, Nat.testBit_and, h254, h2]
  · have h2 : Nat.testBit 2 1 = true := by decide
    simp [Nat.testBit_or, h2]
  · have hx : ∀ n : Nat, isLowerHexDigit (hexChar n) = true := hexChar_lower
    simp [hdata, hexByte, hx]

/-- Witness for C2: the generation contract applied at concrete draws. -/
theorem generate_random_mac_ok_witness :
    validate_mac (generate_random_mac 0 17 34 51 68 85) = true ∧
    Nat.testBit ((0 &&& 0xfe) ||| 0x02) 0 = false ∧
    Nat.testBit ((0 &&& 0xfe) ||| 0x02) 1 = true ∧
    (generate_random_mac 0 17 34 51 68 85).data.all
      (fun ch => isLowerHexDigit ch || decide (ch = ':')) = true :=
  generate_random_mac_ok 0 17 34 51 68 85 (by decide) (by decide) (by decide)
    (by decide) (by decide) (by decide)

/-- Claim C3: the regex scan of get_current_mac returns none exactly when
no position of the input matches the six-hex-group pattern, returns the
leftmost match otherwise, and on the ip-link sample line returns the
link/ether address. -/
theorem get_current_mac_leftmost_scan (cs : List Char) :
    (findMacAux cs = none ↔ ∀ i, matchesAt cs i = false) ∧
    (∀ i, matchesAt cs i = true →
      (∀ j, j < i → matchesAt cs j = false) →
      findMacAux cs = some ((cs.drop i).take 17)) ∧
    parseFromText "link/ether 02:1a:3c:4d:5e:6f brd ff:ff:ff:ff:ff:ff"
      = some "02:1a:3c:4d:5e:6f" :=
  ⟨findMacAux_none_iff cs,
   fun i hi hmin => findMacAux_leftmost cs i hi hmin,
   by decide⟩

/-- Witness for C3: the leftmost-match branch applied at the sample line,
whose first match starts at index 11. -/
theorem get_current_mac_leftmost_scan_witness :
    findMacAux ("link/ether 02:1a:3c:4d:5e:6f brd ff:ff:ff:ff:ff:ff").data
      = some ((("link/ether 02:1a:3c:4d:5e:6f brd ff:ff:ff:ff:ff:ff").data.drop 11).take 17) :=
  (get_current_mac_leftmost_scan
      ("link/ether 02:1a:3c:4d:5e:6f brd ff:ff:ff:ff:ff:ff").data).2.1
    11 (by decide) (by decide)

/-- Claim C4: for every platform, command environment, interface name and
address text that fails validate_mac, change_mac returns False and issues
no OS command. -/
theorem change_mac_rejects_invalid (sys : OSKind) (runOk : List String → Bool)
    (iface m : String) (h : validate_mac m = false) :
    change_mac sys runOk iface m = (false, []) := by
  unfold change_mac
  rw [if_pos h]

/-- Witness for C4: a five-group address is rejected with no command run. -/
theorem change_mac_rejects_invalid_witness :
    validate_mac "00:11:22:33:44" = false ∧
    change_mac OSKind.linux (fun _ => true) "eth0" "00:11:22:33:44" = (false, []) :=
  ⟨by decide,
   change_mac_rejects_invalid OSKind.linux (fun _ => true) "eth0" "00:11:22:33:44"
     (by decide)⟩

/-- Claim C5: validate_mac is a total boolean predicate (the embedding is a
total function into Bool, so it never raises), and it returns false on the
malformed families: the empty string, wrong group count (five or seven
groups), a non-hex character, and mixed group lengths. -/
theorem validate_mac_total_on_malformed :
    (∀ s : String, validate_mac s = false ∨ validate_mac s = true) ∧
    validate_mac "" = false ∧
    validate_mac "00:11:22:33:44" = false ∧
    validate_mac "00:11:22:33:44:55:66" = false ∧
    validate_mac "gg:11:22:33:44:55" = false ∧
    validate_mac "0:11:22:33:44:555" = false :=
  ⟨fun s => by
     cases h : validate_mac s
     · exact Or.inl rfl
     · exact Or.inr rfl,
   by decide, by decide, by decide, by decide, by decide⟩

/-- Claim C6: validate_mac is unchanged by flipping the case of hex
letters, and both the all-uppercase and all-lowercase sample addresses
validate. -/
theorem validate_mac_case_insensitive :
    (∀ s : String, validate_mac (flipCase s) = validate_mac s) ∧
    validate_mac "AA:BB:CC:DD:EE:FF" = true ∧
    validate_mac "aa:bb:cc:dd:ee:ff" = true := by
  refine ⟨fun s => ?_, by decide, by decide⟩
  show validateChars (flipCase s).data = validateChars s.data
  have h : (flipCase s).data = s.data.map flipHexCase := rfl
  rw [h, validateChars_flip]

/-- Claim C7: verify_change returns true exactly when the re-read current
address is found and equals the expected one after lowercasing both. -/
theorem verify_change_iff (raw : Option String) (expected : String) :
    verify_change raw expected = true ↔
      ∃ cur, get_current_mac raw = some cur ∧
        toLowerStr cur = toLowerStr expected := by
  unfold verify_change
  cases h : get_current_mac raw with
  | none => simp
  | some cur =>
    have hne := get_current_mac_ne_empty raw cur h
    simp [hne]

/-- Witness for C7: a successful verification, case-insensitively. -/
theorem verify_change_iff_witness :
    verify_change (some "link/ether aa:bb:cc:dd:ee:ff") "AA:BB:CC:DD:EE:FF" = true :=
  (verify_change_iff (some "link/ether aa:bb:cc:dd:ee:ff") "AA:BB:CC:DD:EE:FF").mpr
    ⟨"aa:bb:cc:dd:ee:ff", by decide, by decide⟩

/-- Claim C8: a keyboard interrupt caught by the top-level handler makes
the process exit with code 0. -/
theorem keyboard_interrupt_exits_zero :
    top_level_exit MainOutcome.keyboardInterrupt = 0 := rfl

/-- Claim C9: each of the five separators is independently a colon or a
hyphen, so mixed-separator addresses validate; in particular the sample
with both kinds of separator. -/
theorem validate_mac_mixed_separators (s1 s2 s3 s4 s5 : Char)
    (h1 : isSep s1 = true) (h2 : isSep s2 = true) (h3 : isSep s3 = true)
    (h4 : isSep s4 = true) (h5 : isSep s5 = true) :
    validate_mac (String.mk
      ['a', 'a', s1, 'b', 'b', s2, 'c', 'c', s3, 'd', 'd', s4, 'e', 'e', s5, 'f', 'f'])
      = true ∧
    validate_mac "aa:bb-cc:dd:ee:ff" = true := by
  have sepcase : ∀ s : Char, isSep s = true → s = ':' ∨ s = '-' := by
    intro s hs
    unfold isSep at hs
    simp only [Bool.or_eq_true, decide_eq_true_eq] at hs
    exact hs
  refine ⟨?_, by decide⟩
  rcases sepcase s1 h1 with rfl | rfl <;> rcases sepcase s2 h2 with rfl | rfl <;>
    rcases sepcase s3 h3 with rfl | rfl <;> rcases sepcase s4 h4 with rfl | rfl <;>
    rcases sepcase s5 h5 with rfl | rfl <;> decide

/-- Witness for C9: a concrete mix of colon and hyphen separators. -/
theorem validate_mac_mixed_separators_witness :
    validate_mac (String.mk
      ['a', 'a', ':', 'b', 'b', '-', 'c', 'c', ':', 'd', 'd', ':', 'e', 'e', ':', 'f', 'f'])
      = true :=
  (validate_mac_mixed_separators ':' '-' ':' ':' ':'
    (by decide) (by decide) (by decide) (by decide) (by decide)).1

/-- Claim C10: a valid address followed by exactly one newline validates
(the dollar anchor matches before a final newline); the same address
followed by any other single character, or by two or more characters,
does not. -/
theorem validate_mac_trailing_newline_only :
    validate_mac (String.mk ("aa:bb:cc:dd:ee:ff".data ++ ['\n'])) = true ∧
    (∀ c : Char, c ≠ '\n' →
      validate_mac (String.mk ("aa:bb:cc:dd:ee:ff".data ++ [c])) = false) ∧
    (∀ extra : List Char, 2 ≤ extra.length →
      validate_mac (String.mk ("aa:bb:cc:dd:ee:ff".data ++ extra)) = false) := by
  have hb : ("aa:bb:cc:dd:ee:ff".data).length = 17 := by decide
  have key : ∀ l : List Char, l.length ≠ 17 → macGroups 5 l = false := by
    intro l hne
    cases h : macGroups 5 l
    · rfl
    · have := macGroups_length 5 l h
      omega
  refine ⟨by decide, ?_, ?_⟩
  · intro c hc
    show validateChars ("aa:bb:cc:dd:ee:ff".data ++ [c]) = false
    have h1 : macGroups 5 ("aa:bb:cc:dd:ee:ff".data ++ [c]) = false := by
      apply key
      simp [List.length_append, hb]
    unfold validateChars
    rw [List.getLast?_concat, List.dropLast_concat, h1]
    simp [hc]
  · intro extra hx
    show validateChars ("aa:bb:cc:dd:ee:ff".data ++ extra) = false
    have h1 : macGroups 5 ("aa:bb:cc:dd:ee:ff".data ++ extra) = false := by
      apply key
      rw [List.length_append, hb]
      omega
    unfold validateChars
    rw [h1]
    cases hg : ("aa:bb:cc:dd:ee:ff".data ++ extra).getLast? with
    | none => rfl
    | some c =>
      have h2 : macGroups 5 (("aa:bb:cc:dd:ee:ff".data ++ extra).dropLast) = false := by
        apply key
        rw [List.length_dropLast, List.length_append, hb]
        omega
      rw [Bool.false_or]
      show (decide (c = '\n') &&
        macGroups 5 (("aa:bb:cc:dd:ee:ff".data ++ extra).dropLast)) = false
      rw [h2, Bool.and_false]

/-- Witness for C10: a non-newline trailing character and a two-character
tail are both rejected. -/
theorem validate_mac_trailing_newline_only_witness :
    ('x' ≠ '\n' ∧
      validate_mac (String.mk ("aa:bb:cc:dd:ee:ff".data ++ ['x'])) = false) ∧
    (2 ≤ ([' ', ' '] : List Char).length ∧
      validate_mac (String.mk ("aa:bb:cc:dd:ee:ff".data ++ [' ', ' '])) = false) :=
  ⟨⟨by decide, validate_mac_trailing_newline_only.2.1 'x' (by decide)⟩,
   ⟨by decide, validate_mac_trailing_newline_only.2.2 [' ', ' '] (by decide)⟩⟩
